import Mathlib

/-!
Verification of the scholarship rule engine (`src/code.py`, `app.py`).

The core of the program is three functions over plain data:
  * `evaluate_condition(facts, cond)` — evaluates one `[field, op, value]`
    triple against a fact dictionary (lines 88–98);
  * `rule_matches(facts, rule)` — AND over all conditions (lines 100–102);
  * `run_rules(facts, rules)` — filters matching rules, stable-sorts them by
    priority descending, and returns the winner's action together with the
    sorted match list (lines 104–116);
plus the literal `DEFAULT_RULES` list (lines 23–86) and the operator table
`OPS` (lines 11–20).

Embedding choices:
  * Python scalar values are modelled by `Val`: numbers as rationals
    (Python int/float are unified — the program only compares numbers, and
    `0 == 0.0` in Python), strings, lists, and string-keyed dictionaries
    (JSON-shaped data, as produced by `json.loads` in the app).
  * Fact dictionaries are association lists `List (String × Val)`.
  * A rule record is modelled at two levels.  The typed model (`Rule`) has
    the four fields the code reads, each `Option`al because the code
    accesses every one of them with `dict.get` and a default.  The raw
    model treats a rule as an arbitrary `Val` and returns `Option`
    results, `none` modelling a raised Python exception; it is used for
    the claims about malformed rule records.
  * Python's `sorted(..., key=..., reverse=True)` is a stable descending
    sort: an element is placed after every earlier element with a strictly
    larger key and before every element whose key is ≤ its own.  `sortB`
    below computes exactly that list (insertion formulation).
-/

namespace RuleEngine

/-- A Python/JSON value as used by the program: a number (int or float,
modelled as a rational), a string, a list, or a string-keyed dictionary. -/
inductive Val : Type where
  | num (q : ℚ)
  | str (s : String)
  | vlist (vs : List Val)
  | vdict (kvs : List (String × Val))

/-- Dictionary lookup: `d[k]` / `k in d` for a string-keyed Python dict
(association list; Python dict keys are unique, first binding wins). -/
def dictGet : List (String × Val) → String → Option Val
  | [], _ => none
  | (k, v) :: rest, key => if k == key then some v else dictGet rest key

mutual

/-- Python `==` on values (`operator.eq`): numeric equality on numbers,
string equality, elementwise equality on lists, and key/value equality on
dictionaries (Python dict equality ignores ordering; dictionaries coming
from JSON have unique keys, for which length-equality plus one-sided
containment is exactly Python's dict equality).  Values of different kinds
compare unequal (Python `==` across these types is `False`, not an error). -/
def pyEq : Val → Val → Bool
  | .num a, .num b => decide (a = b)
  | .str a, .str b => a == b
  | .vlist xs, .vlist ys => pyEqList xs ys
  | .vdict xs, .vdict ys => decide (xs.length = ys.length) && pyDictSub xs ys
  | _, _ => false
termination_by a b => sizeOf a + sizeOf b

/-- Elementwise Python `==` on lists (equal length and equal elements). -/
def pyEqList : List Val → List Val → Bool
  | [], [] => true
  | x :: xs, y :: ys => pyEq x y && pyEqList xs ys
  | _, _ => false
termination_by xs ys => sizeOf xs + sizeOf ys

/-- Every binding of the first dictionary is matched by the second. -/
def pyDictSub : List (String × Val) → List (String × Val) → Bool
  | [], _ => true
  | (k, v) :: rest, ys => pyDictFind k v ys && pyDictSub rest ys
termination_by xs ys => sizeOf xs + sizeOf ys

/-- The dictionary maps key `k` to a value equal (Python `==`) to `v`. -/
def pyDictFind (k : String) (v : Val) : List (String × Val) → Bool
  | [] => false
  | (k2, v2) :: rest => if k == k2 then pyEq v v2 else pyDictFind k v rest
termination_by ys => sizeOf v + sizeOf ys

end

/-- Three-way comparison on rationals. -/
def cmpQ (a b : ℚ) : Ordering :=
  if a < b then .lt else if b < a then .gt else .eq

/-- Three-way comparison on strings (lexicographic by code point, as in
Python). -/
def cmpS (a b : String) : Ordering :=
  if a < b then .lt else if b < a then .gt else .eq

mutual

/-- Python's ordering comparison (`<`, `<=`, `>`, `>=`): defined between
two numbers, two strings, and two lists (lexicographic); every other
combination raises `TypeError`, modelled as `none`. -/
def pyCmp : Val → Val → Option Ordering
  | .num a, .num b => some (cmpQ a b)
  | .str a, .str b => some (cmpS a b)
  | .vlist xs, .vlist ys => pyCmpList xs ys
  | _, _ => none
termination_by a b => sizeOf a + sizeOf b

/-- Python list comparison: skip the longest common prefix (using `==`,
which never raises here), then compare the first differing elements (which
may raise); a strict prefix is smaller. -/
def pyCmpList : List Val → List Val → Option Ordering
  | [], [] => some .eq
  | [], _ :: _ => some .lt
  | _ :: _, [] => some .gt
  | x :: xs, y :: ys => if pyEq x y then pyCmpList xs ys else pyCmp x y
termination_by xs ys => sizeOf xs + sizeOf ys

end

/-- `t` is a prefix of `s` (character lists). -/
def startsList : List Char → List Char → Bool
  | [], _ => true
  | _ :: _, [] => false
  | a :: ta, b :: sb => a == b && startsList ta sb

/-- `t` occurs contiguously in `s` (Python substring containment). -/
def subOf : List Char → List Char → Bool
  | t, [] => t.isEmpty
  | t, b :: s' => startsList t (b :: s') || subOf t s'

/-- Python `a in b`: membership in a list (elementwise `==`), substring
test when both are strings, key membership for dictionaries; `in` with a
number on the right, or an unhashable/non-string left operand against a
string or dictionary, raises `TypeError` (`none`). -/
def pyIn (a b : Val) : Option Bool :=
  match b with
  | .num _ => none
  | .str s =>
    match a with
    | .str t => some (subOf t.toList s.toList)
    | _ => none
  | .vlist ys => some (ys.any (fun y => pyEq a y))
  | .vdict kvs =>
    match a with
    | .str t => some (kvs.any (fun kv => kv.1 == t))
    | .num _ => some false
    | _ => none

/-- The keys of the `OPS` table (`src/code.py` lines 11–20). -/
def opKeys : List String := ["==", "!=", ">", ">=", "<", "<=", "in", "not_in"]

/-- `OPS[op](a, b)` (`src/code.py` lines 11–20): applies the named operator;
`none` models a raised exception (type-incompatible comparison or
membership test), and also an unknown operator name (the caller guards
with `op not in OPS` first, so that branch is never reached from
`evaluate_condition`). -/
def applyOp (opName : String) (a b : Val) : Option Bool :=
  if opName == "==" then some (pyEq a b)
  else if opName == "!=" then some (!pyEq a b)
  else if opName == ">" then (pyCmp a b).map (fun o => o == Ordering.gt)
  else if opName == ">=" then (pyCmp a b).map (fun o => o != Ordering.lt)
  else if opName == "<" then (pyCmp a b).map (fun o => o == Ordering.lt)
  else if opName == "<=" then (pyCmp a b).map (fun o => o != Ordering.gt)
  else if opName == "in" then pyIn a b
  else if opName == "not_in" then (pyIn a b).map (fun x => !x)
  else none

/-- A fact dictionary: string-keyed mapping of applicant attributes. -/
abbrev Facts := List (String × Val)

/-- `evaluate_condition(facts, cond)` (`src/code.py` lines 88–98):
evaluate a single condition `[field, op, value]`.  A condition that is not
a three-element list returns `false`; with three elements, a field absent
from the facts or an operator not in `OPS` returns `false`; otherwise the
operator is applied inside `try/except`, every exception becoming `false`.
A three-element condition whose field or operator slot is a number also
returns `false` — a number is hashable but never a key of the
string-keyed fact dictionary or of `OPS`.  Caveat: the `_` branch below
also absorbs a list- or dictionary-valued field or operator slot, for
which the program instead raises `TypeError` — the membership tests
`field not in facts or op not in OPS` (line 93) hash their operand and
sit outside the `try`.  That raising path cannot be expressed by this
`Bool`-valued function; it is modelled faithfully by `evalCondList`
below (`none` = raise), against which claim C4 is settled.  This function
is therefore the code's behaviour on conditions whose field and operator
slots are hashable. -/
def evaluate_condition (facts : Facts) (cond : List Val) : Bool :=
  match cond with
  | [Val.str field, Val.str opName, value] =>
    (match dictGet facts field with
     | none => false
     | some fv =>
       if opKeys.contains opName then (applyOp opName fv value).getD false
       else false)
  | _ => false

/-- A rule record, as read by the core (`src/code.py`).  Every field is
optional because the code reads each one with `rule.get(key, default)`:
a missing key is `none`. -/
structure Rule where
  name : Option String
  priority : Option ℚ
  conditions : Option (List (List Val))
  action : Option Val

/-- `rule.get("priority", 0)` — the sort key used in `run_rules`
(`src/code.py` line 114). -/
def getPriority (r : Rule) : ℚ := r.priority.getD 0

/-- `rule_matches(facts, rule)` (`src/code.py` lines 100–102):
`all(evaluate_condition(facts, c) for c in rule.get("conditions", []))`. -/
def rule_matches (facts : Facts) (r : Rule) : Bool :=
  (r.conditions.getD []).all (fun c => evaluate_condition facts c)

/-- Insert `r` after every element `x` with `bef x r = true` and before
the first element without it.  With `bef x r` read as "`x`'s sort key is
strictly greater than `r`'s", this places `r` exactly where Python's
stable descending sort does. -/
def insertB {α : Type} (bef : α → α → Bool) (r : α) : List α → List α
  | [] => [r]
  | x :: xs => if bef x r then x :: insertB bef r xs else r :: x :: xs

/-- Stable sort (insertion formulation): each element is inserted into the
sorted tail, staying before later-input elements with an equal key.  This
computes the same list as Python's stable `sorted`. -/
def sortB {α : Type} (bef : α → α → Bool) : List α → List α
  | [] => []
  | r :: rs => insertB bef r (sortB bef rs)

/-- Keep `x` (already placed, earlier in the input) before the newcomer
`r` exactly when `x`'s priority is strictly greater — descending order,
ties keep input order. -/
def befPriority (x r : Rule) : Bool := decide (getPriority r < getPriority x)

/-- `sorted(fired, key=lambda r: r.get("priority", 0), reverse=True)`
(`src/code.py` line 114): stable descending sort by priority. -/
def sortDesc : List Rule → List Rule := sortB befPriority

/-- The fallback decision `{"decision": "REVIEW", "reason": "No rule
matched"}` (`src/code.py` line 112). -/
def noMatchDecision : Val :=
  .vdict [("decision", .str "REVIEW"), ("reason", .str "No rule matched")]

/-- The default action `{"decision": "REVIEW", "reason": "No action
defined"}` substituted when the winning rule has no action
(`src/code.py` line 115). -/
def noActionDecision : Val :=
  .vdict [("decision", .str "REVIEW"), ("reason", .str "No action defined")]

/-- `run_rules(facts, rules)` (`src/code.py` lines 104–116): filter the
rules that match, return the fallback on an empty result, otherwise
stable-sort by priority descending and return the first rule's action
(with the `"No action defined"` default) together with the sorted list. -/
def run_rules (facts : Facts) (rules : List Rule) : Val × List Rule :=
  match rules.filter (fun r => rule_matches facts r) with
  | [] => (noMatchDecision, [])
  | f :: fs =>
    let fired_sorted := sortDesc (f :: fs)
    ((fired_sorted.headD f).action.getD noActionDecision, fired_sorted)

/-- First entry of `DEFAULT_RULES` (`src/code.py` lines 24–37). -/
def defaultRule1 : Rule :=
  ⟨some "Top merit candidate", some 100,
   some [[.str "cgpa", .str ">=", .num 3.7],
         [.str "co_curricular_score", .str ">=", .num 80],
         [.str "family_income", .str "<=", .num 8000],
         [.str "disciplinary_actions", .str "==", .num 0]],
   some (.vdict [("decision", .str "AWARD_FULL"),
                 ("reason", .str "Excellent academic & co-curricular performance, with acceptable need")])⟩

/-- Second entry of `DEFAULT_RULES` (`src/code.py` lines 38–51). -/
def defaultRule2 : Rule :=
  ⟨some "Good candidate - partial scholarship", some 80,
   some [[.str "cgpa", .str ">=", .num 3.3],
         [.str "co_curricular_score", .str ">=", .num 60],
         [.str "family_income", .str "<=", .num 12000],
         [.str "disciplinary_actions", .str "<=", .num 1]],
   some (.vdict [("decision", .str "AWARD_PARTIAL"),
                 ("reason", .str "Good academic & involvement record with moderate need")])⟩

/-- Third entry of `DEFAULT_RULES` (`src/code.py` lines 52–63). -/
def defaultRule3 : Rule :=
  ⟨some "Need-based review", some 70,
   some [[.str "cgpa", .str ">=", .num 2.5],
         [.str "family_income", .str "<=", .num 4000]],
   some (.vdict [("decision", .str "REVIEW"),
                 ("reason", .str "High need but borderline academic score")])⟩

/-- Fourth entry of `DEFAULT_RULES` (`src/code.py` lines 64–74). -/
def defaultRule4 : Rule :=
  ⟨some "Low CGPA – not eligible", some 95,
   some [[.str "cgpa", .str "<", .num 2.5]],
   some (.vdict [("decision", .str "REJECT"),
                 ("reason", .str "CGPA below minimum scholarship requirement")])⟩

/-- Fifth entry of `DEFAULT_RULES` (`src/code.py` lines 75–85). -/
def defaultRule5 : Rule :=
  ⟨some "Serious disciplinary record", some 90,
   some [[.str "disciplinary_actions", .str ">=", .num 2]],
   some (.vdict [("decision", .str "REJECT"),
                 ("reason", .str "Too many disciplinary records")])⟩

/-- `DEFAULT_RULES` (`src/code.py` lines 23–86): the five literal default
rules, in source order (the entries are transcribed one rule per
definition above). -/
def DEFAULT_RULES : List Rule :=
  [defaultRule1, defaultRule2, defaultRule3, defaultRule4, defaultRule5]

/-- The first rule of maximal priority: scan left to right, replacing the
current best only on a strictly greater priority.  This is the
specification's description of the winner — numerically highest priority,
and among equal priorities the rule appearing earliest in the input. -/
def firstMaxBy : Rule → List Rule → Rule
  | b, [] => b
  | b, x :: xs =>
    if getPriority b < getPriority x then firstMaxBy x xs else firstMaxBy b xs

/-!
Raw model: the same three Python functions applied to rule records of
arbitrary shape (any `Val`), as the type annotation `List[Dict[str, Any]]`
does not stop a caller (in the app, `json.loads` of user-edited text) from
supplying.  A result of `none` models a raised Python exception.
-/

/-- A hashable scalar (number or string).  `x in facts` and `x in OPS`
require a hashable `x`; a list or dictionary raises `TypeError`. -/
def isScalar : Val → Bool
  | .num _ => true
  | .str _ => true
  | _ => false

/-- `evaluate_condition` on a condition that is a sequence of arbitrary
values.  The `len` check and unpacking always succeed; `field not in
facts` and `op not in OPS` sit OUTSIDE the `try`, so an unhashable
(list/dictionary) field or operator raises `TypeError` (`none`).  A
hashable non-string field or operator is simply not a key of the
string-keyed dictionaries, giving `False`; with a string field and
operator the behaviour is the typed `evaluate_condition`. -/
def evalCondList (facts : Facts) (vs : List Val) : Option Bool :=
  match vs with
  | [field, opv, value] =>
    (match field with
     | .vlist _ => none
     | .vdict _ => none
     | .num _ => some false
     | .str f =>
       match dictGet facts f with
       | none => some false
       | some fv =>
         match opv with
         | .vlist _ => none
         | .vdict _ => none
         | .num _ => some false
         | .str o =>
           if opKeys.contains o then some ((applyOp o fv value).getD false)
           else some false)
  | _ => some false

/-- `evaluate_condition` applied to a condition of arbitrary type.  Python
takes `len(cond)` and unpacks `field, op, value = cond`: a number has no
`len` (`TypeError`, i.e. `none`); a string is a sequence of its one-charac-
ter substrings; a dictionary unpacks to its keys; a list is evaluated by
`evalCondList` on its elements. -/
def evaluate_condition_raw (facts : Facts) (cond : Val) : Option Bool :=
  match cond with
  | .num _ => none
  | .str s =>
    evalCondList facts (s.toList.map (fun c => Val.str (String.singleton c)))
  | .vlist vs => evalCondList facts vs
  | .vdict kvs =>
    evalCondList facts (kvs.map (fun kv => Val.str kv.1))

/-- `all(evaluate_condition(facts, c) for c in conds)`: short-circuits on
the first `False`, so an exception in a later condition is never raised. -/
def condsAll (facts : Facts) : List Val → Option Bool
  | [] => some true
  | c :: cs =>
    match evaluate_condition_raw facts c with
    | none => none
    | some false => some false
    | some true => condsAll facts cs

/-- `rule_matches` on a rule record of arbitrary shape.  A non-dictionary
record raises `AttributeError` on `rule.get` (`none`).  For a dictionary,
`rule.get("conditions", [])` is iterated: a number is not iterable
(`TypeError`); a string iterates its characters, a dictionary its keys, a
list its elements. -/
def rule_matches_raw (facts : Facts) (r : Val) : Option Bool :=
  match r with
  | .vdict kvs =>
    (match (dictGet kvs "conditions").getD (.vlist []) with
     | .num _ => none
     | .str s => condsAll facts (s.toList.map (fun c => Val.str (String.singleton c)))
     | .vlist cs => condsAll facts cs
     | .vdict kvs2 => condsAll facts (kvs2.map (fun kv => Val.str kv.1)))
  | _ => none

/-- `[r for r in rules if rule_matches(facts, r)]`, evaluated left to
right; the first exception aborts the comprehension. -/
def filterMatches (facts : Facts) : List Val → Option (List Val)
  | [] => some []
  | r :: rs =>
    match rule_matches_raw facts r with
    | none => none
    | some true => (filterMatches facts rs).map (fun l => r :: l)
    | some false => filterMatches facts rs

/-- `r.get("priority", 0)` on a raw (dictionary) rule.  Only dictionaries
reach the sort — a non-dictionary rule already raised inside
`rule_matches` — so the non-dictionary branch is arbitrary. -/
def rawPriority (r : Val) : Val :=
  match r with
  | .vdict kvs => (dictGet kvs "priority").getD (.num 0)
  | _ => .num 0

/-- Every pair of sort keys is comparable.  Python's sort raises
`TypeError` as soon as it compares two incomparable keys; with at least
two elements an incomparable pair is always compared (the first element
whose type differs from the earlier ones is compared against one of
them), so the sort succeeds exactly when all key pairs are comparable. -/
def allComparable : List Val → Bool
  | [] => true
  | k :: ks => ks.all (fun k2 => (pyCmp k k2).isSome) && allComparable ks

/-- Descending placement for the raw sort: keep `x` before the newcomer
`r` exactly when `x`'s key is strictly greater. -/
def befRaw (x r : Val) : Bool := pyCmp (rawPriority x) (rawPriority r) == some Ordering.gt

/-- `best.get("action", {"decision": "REVIEW", "reason": "No action
defined"})` on a raw rule; a non-dictionary would raise (`none`), but only
dictionaries survive the filter. -/
def rawActionOpt (r : Val) : Option Val :=
  match r with
  | .vdict kvs => some ((dictGet kvs "action").getD noActionDecision)
  | _ => none

/-- `run_rules` on rule records of arbitrary shape; `none` models an
exception raised anywhere in the pass (filtering, sorting, or reading the
winner's action). -/
def run_rules_raw (facts : Facts) (rules : List Val) : Option (Val × List Val) :=
  match filterMatches facts rules with
  | none => none
  | some [] => some (noMatchDecision, [])
  | some (f :: fs) =>
    if allComparable ((f :: fs).map rawPriority) then
      match sortB befRaw (f :: fs) with
      | [] => none
      | b :: t =>
        match rawActionOpt b with
        | none => none
        | some a => some (a, b :: t)
    else none

/-- A well-formed condition record: a list which, if it has exactly three
elements, carries a scalar (hashable) field and operator — the shapes the
specification's data model (§3) allows, strings being the meaningful
case. -/
def wfCond (c : Val) : Bool :=
  match c with
  | .vlist [f, o, _] => isScalar f && isScalar o
  | .vlist _ => true
  | _ => false

/-- A well-formed rule record, as the specification's data model describes
(§3, §7): a dictionary whose `conditions` value (defaulting to `[]`) is a
list of well-formed condition lists, and whose `priority` value
(defaulting to `0`) is a number. -/
def wfRule (r : Val) : Bool :=
  match r with
  | .vdict kvs =>
    (match (dictGet kvs "conditions").getD (.vlist []) with
     | .vlist cs => cs.all wfCond
     | _ => false) &&
    (match (dictGet kvs "priority").getD (.num 0) with
     | .num _ => true
     | _ => false)
  | _ => false

/-!
Helper lemmas.  The operator table and dictionary lookups are discriminated
by string literals, which the kernel evaluates; the `applyOp` equations
below are definitional.  `pyEq`/`pyCmp` are compiled by well-founded
recursion, so their unfoldings are stated as `simp`-provable equations.
-/

theorem applyOp_eqOp (a b : Val) : applyOp "==" a b = some (pyEq a b) := rfl

theorem applyOp_neOp (a b : Val) : applyOp "!=" a b = some (!pyEq a b) := rfl

theorem applyOp_gtOp (a b : Val) :
    applyOp ">" a b = (pyCmp a b).map (fun o => o == Ordering.gt) := rfl

theorem applyOp_geOp (a b : Val) :
    applyOp ">=" a b = (pyCmp a b).map (fun o => o != Ordering.lt) := rfl

theorem applyOp_ltOp (a b : Val) :
    applyOp "<" a b = (pyCmp a b).map (fun o => o == Ordering.lt) := rfl

theorem applyOp_leOp (a b : Val) :
    applyOp "<=" a b = (pyCmp a b).map (fun o => o != Ordering.gt) := rfl

theorem opKeys_eqOp : opKeys.contains "==" = true := rfl

theorem opKeys_gtOp : opKeys.contains ">" = true := rfl

theorem opKeys_geOp : opKeys.contains ">=" = true := rfl

theorem opKeys_ltOp : opKeys.contains "<" = true := rfl

theorem opKeys_leOp : opKeys.contains "<=" = true := rfl

/-- Unfolding of `evaluate_condition` on a well-shaped triple. -/
theorem evaluate_condition_triple (facts : Facts) (f o : String) (v : Val) :
    evaluate_condition facts [.str f, .str o, v] =
      (match dictGet facts f with
       | none => false
       | some fv =>
         if opKeys.contains o then (applyOp o fv v).getD false else false) := rfl

theorem pyEq_num (a b : ℚ) : pyEq (.num a) (.num b) = decide (a = b) := by
  simp [pyEq]

theorem pyCmp_num (a b : ℚ) : pyCmp (.num a) (.num b) = some (cmpQ a b) := by
  simp [pyCmp]

/-!
The stable sort: permutation, sortedness, stability (filtering at any one
key is unchanged), and the identity of the first element.
-/

theorem insertB_perm {α : Type} (bef : α → α → Bool) (r : α) (l : List α) :
    (insertB bef r l).Perm (r :: l) := by
  induction l with
  | nil => simp [insertB]
  | cons x xs ih =>
    by_cases h : bef x r
    · simpa [insertB, h] using (ih.cons x).trans (List.Perm.swap r x xs)
    · simp [insertB, h]

theorem sortB_perm {α : Type} (bef : α → α → Bool) (l : List α) :
    (sortB bef l).Perm l := by
  induction l with
  | nil => simp [sortB]
  | cons r rs ih => exact (insertB_perm bef r (sortB bef rs)).trans (ih.cons r)

/-- Stability of the insertion step, seen through `filter`: inserting `r`
does not disturb the relative order of the elements selected by any
predicate `p` that cannot hold simultaneously for `r` and for an element
placed before it. -/
theorem insertB_filter {α : Type} (bef : α → α → Bool) (r : α) (p : α → Bool)
    (H : ∀ x, bef x r = true → p r = true → p x = false) (l : List α) :
    (insertB bef r l).filter p = (r :: l).filter p := by
  induction l with
  | nil => simp [insertB]
  | cons x xs ih =>
    by_cases h : bef x r
    · rw [insertB, if_pos h]
      by_cases hpr : p r
      · have hpx : p x = false := H x h hpr
        rw [List.filter_cons_of_neg (by simp [hpx]), ih,
          List.filter_cons_of_pos (by simp [hpr]),
          List.filter_cons_of_pos (by simp [hpr]),
          List.filter_cons_of_neg (by simp [hpx])]
      · have hpr' : p r = false := by simpa using hpr
        rw [List.filter_cons, ih, List.filter_cons, List.filter_cons]
        simp [hpr', List.filter_cons]
    · rw [insertB, if_neg h]

theorem sortB_filter {α : Type} (bef : α → α → Bool) (p : α → Bool)
    (H : ∀ x r, bef x r = true → p r = true → p x = false) (l : List α) :
    (sortB bef l).filter p = l.filter p := by
  induction l with
  | nil => rfl
  | cons r rs ih =>
    rw [sortB, insertB_filter bef r p (fun x hx hr => H x r hx hr),
      List.filter_cons, List.filter_cons, ih]

/-- `befPriority x r` holds exactly when `x`'s priority is strictly
greater than `r`'s. -/
theorem befPriority_iff (x r : Rule) :
    befPriority x r = true ↔ getPriority r < getPriority x := by
  simp [befPriority]

theorem sortDesc_perm (l : List Rule) : (sortDesc l).Perm l :=
  sortB_perm befPriority l

/-- Stability of `sortDesc`: the rules carrying any one fixed priority
appear in the output in their input order. -/
theorem sortDesc_filter (k : ℚ) (l : List Rule) :
    (sortDesc l).filter (fun r => decide (getPriority r = k)) =
      l.filter (fun r => decide (getPriority r = k)) := by
  refine sortB_filter befPriority _ ?_ l
  intro x r hx hr
  rw [befPriority_iff] at hx
  simp only [decide_eq_true_eq] at hr
  simp only [decide_eq_false_iff_not]
  rw [hr] at hx
  exact ne_of_gt hx

theorem insertB_pairwise_desc (r : Rule) (l : List Rule)
    (h : l.Pairwise (fun a b => getPriority b ≤ getPriority a)) :
    (insertB befPriority r l).Pairwise (fun a b => getPriority b ≤ getPriority a) := by
  induction l with
  | nil => simp [insertB]
  | cons x xs ih =>
    rw [List.pairwise_cons] at h
    obtain ⟨h1, h2⟩ := h
    by_cases hb : befPriority x r
    · rw [insertB, if_pos hb, List.pairwise_cons]
      refine ⟨?_, ih h2⟩
      intro y hy
      have hy' : y ∈ r :: xs := (insertB_perm befPriority r xs).mem_iff.mp hy
      rcases List.mem_cons.mp hy' with rfl | hy''
      · exact le_of_lt ((befPriority_iff x y).mp hb)
      · exact h1 y hy''
    · rw [insertB, if_neg hb, List.pairwise_cons]
      have hxr : getPriority x ≤ getPriority r := by
        have := (befPriority_iff x r).not.mp (by simpa using hb)
        exact le_of_not_lt this
      refine ⟨?_, List.pairwise_cons.mpr ⟨h1, h2⟩⟩
      intro y hy
      rcases List.mem_cons.mp hy with rfl | hy'
      · exact hxr
      · exact le_trans (h1 y hy') hxr

theorem sortDesc_pairwise (l : List Rule) :
    (sortDesc l).Pairwise (fun a b => getPriority b ≤ getPriority a) := by
  induction l with
  | nil => simp [sortDesc, sortB]
  | cons r rs ih => exact insertB_pairwise_desc r (sortB befPriority rs) ih

/-!
The leftmost maximal-priority rule.
-/

theorem firstMaxBy_le (b : Rule) (xs : List Rule) :
    ∀ x ∈ b :: xs, getPriority x ≤ getPriority (firstMaxBy b xs) := by
  induction xs generalizing b with
  | nil =>
    intro x hx
    rw [List.mem_singleton] at hx
    subst hx
    exact le_refl _
  | cons y ys ih =>
    intro x hx
    by_cases h : getPriority b < getPriority y
    · rw [firstMaxBy, if_pos h]
      rcases List.mem_cons.mp hx with rfl | hx'
      · exact le_of_lt (lt_of_lt_of_le h (ih y y (List.mem_cons_self y ys)))
      · exact ih y x hx'
    · rw [firstMaxBy, if_neg h]
      rcases List.mem_cons.mp hx with hxb | hx'
      · rw [hxb]
        exact ih b b (List.mem_cons_self b ys)
      · rcases List.mem_cons.mp hx' with hxy | hx''
        · rw [hxy]
          exact le_trans (le_of_not_lt h) (ih b b (List.mem_cons_self b ys))
        · exact ih b x (List.mem_cons_of_mem b hx'')

theorem firstMaxBy_mem (b : Rule) (xs : List Rule) : firstMaxBy b xs ∈ b :: xs := by
  induction xs generalizing b with
  | nil => simp [firstMaxBy]
  | cons y ys ih =>
    by_cases h : getPriority b < getPriority y
    · rw [firstMaxBy, if_pos h]
      exact List.mem_cons_of_mem b (ih y)
    · rw [firstMaxBy, if_neg h]
      rcases List.mem_cons.mp (ih b) with h' | h'
      · rw [h']
        exact List.mem_cons_self b (y :: ys)
      · exact List.mem_cons_of_mem b (List.mem_cons_of_mem y h')

/-- The input list splits around its leftmost maximal-priority element,
with everything before it of strictly smaller priority. -/
theorem firstMaxBy_split (b : Rule) (xs : List Rule) :
    ∃ pre post, b :: xs = pre ++ firstMaxBy b xs :: post ∧
      ∀ x ∈ pre, getPriority x < getPriority (firstMaxBy b xs) := by
  induction xs generalizing b with
  | nil => exact ⟨[], [], rfl, by simp⟩
  | cons y ys ih =>
    by_cases h : getPriority b < getPriority y
    · rw [firstMaxBy, if_pos h]
      obtain ⟨pre, post, heq, hlt⟩ := ih y
      refine ⟨b :: pre, post, ?_, ?_⟩
      · rw [List.cons_append, ← heq]
      · intro x hx
        rcases List.mem_cons.mp hx with rfl | hx'
        · exact lt_of_lt_of_le h (firstMaxBy_le y ys y (List.mem_cons_self y ys))
        · exact hlt x hx'
    · rw [firstMaxBy, if_neg h]
      obtain ⟨pre, post, heq, hlt⟩ := ih b
      cases pre with
      | nil =>
        rw [List.nil_append] at heq
        have hb : b = firstMaxBy b ys := (List.cons.injEq _ _ _ _ ▸ heq).1
        exact ⟨[], y :: ys, by rw [List.nil_append, ← hb], by simp⟩
      | cons p pre' =>
        rw [List.cons_append] at heq
        have hb : b = p := (List.cons.injEq _ _ _ _ ▸ heq).1
        have hys : ys = pre' ++ firstMaxBy b ys :: post :=
          (List.cons.injEq _ _ _ _ ▸ heq).2
        refine ⟨b :: y :: pre', post, ?_, ?_⟩
        · rw [List.cons_append, List.cons_append, ← hys]
        · intro x hx
          have hplt : getPriority p < getPriority (firstMaxBy b ys) :=
            hlt p (List.mem_cons_self p pre')
          rcases List.mem_cons.mp hx with rfl | hx'
          · exact hb ▸ hplt
          · rcases List.mem_cons.mp hx' with rfl | hx''
            · exact lt_of_le_of_lt (le_of_not_lt h) (hb ▸ hplt)
            · exact hlt x (List.mem_cons_of_mem p hx'')

/-- The first element of the stable descending sort of a non-empty list is
its leftmost maximal-priority element. -/
theorem sortDesc_head (f : Rule) (fs : List Rule) :
    ∃ t, sortDesc (f :: fs) = firstMaxBy f fs :: t := by
  have hperm : (sortDesc (f :: fs)).Perm (f :: fs) := sortDesc_perm (f :: fs)
  have hne : sortDesc (f :: fs) ≠ [] := by
    intro hnil
    have := hperm.length_eq
    rw [hnil] at this
    simp at this
  obtain ⟨b, t, hbt⟩ := List.exists_cons_of_ne_nil hne
  have hbmem : b ∈ f :: fs := hperm.mem_iff.mp (by rw [hbt]; exact List.mem_cons_self b t)
  have hble : getPriority b ≤ getPriority (firstMaxBy f fs) := firstMaxBy_le f fs b hbmem
  have hmmem : firstMaxBy f fs ∈ sortDesc (f :: fs) := hperm.mem_iff.mpr (firstMaxBy_mem f fs)
  have hpair := sortDesc_pairwise (f :: fs)
  have hmb : getPriority (firstMaxBy f fs) ≤ getPriority b := by
    rw [hbt] at hmmem hpair
    rcases List.mem_cons.mp hmmem with heq | hmt
    · rw [heq]
    · exact (List.pairwise_cons.mp hpair).1 _ hmt
  have hpr : getPriority b = getPriority (firstMaxBy f fs) := le_antisymm hble hmb
  have hfil := sortDesc_filter (getPriority (firstMaxBy f fs)) (f :: fs)
  obtain ⟨pre, post, hsplit, hlt⟩ := firstMaxBy_split f fs
  have hpre : pre.filter
      (fun r => decide (getPriority r = getPriority (firstMaxBy f fs))) = [] := by
    rw [List.filter_eq_nil_iff]
    intro x hx
    simp only [decide_eq_true_eq]
    exact ne_of_lt (hlt x hx)
  have hR : (f :: fs).filter
      (fun r => decide (getPriority r = getPriority (firstMaxBy f fs))) =
      firstMaxBy f fs ::
        post.filter (fun r => decide (getPriority r = getPriority (firstMaxBy f fs))) := by
    rw [hsplit, List.filter_append, hpre, List.nil_append,
      List.filter_cons_of_pos (by simp)]
  have hL : (sortDesc (f :: fs)).filter
      (fun r => decide (getPriority r = getPriority (firstMaxBy f fs))) =
      b :: t.filter (fun r => decide (getPriority r = getPriority (firstMaxBy f fs))) := by
    rw [hbt, List.filter_cons_of_pos (by simp [hpr])]
  have hbm : b = firstMaxBy f fs := by
    have := hL.symm.trans (hfil.trans hR)
    exact (List.cons.injEq _ _ _ _ ▸ this).1
  exact ⟨t, by rw [hbt, hbm]⟩

/-!
Unfolding and unconditional shape lemmas for `run_rules`.
-/

theorem run_rules_of_filter_nil (facts : Facts) (rules : List Rule)
    (h : rules.filter (fun r => rule_matches facts r) = []) :
    run_rules facts rules = (noMatchDecision, []) := by
  rw [run_rules.eq_def, h]

theorem run_rules_of_filter_cons (facts : Facts) (rules : List Rule) (f : Rule)
    (fs : List Rule) (h : rules.filter (fun r => rule_matches facts r) = f :: fs) :
    run_rules facts rules =
      (((sortDesc (f :: fs)).headD f).action.getD noActionDecision,
        sortDesc (f :: fs)) := by
  rw [run_rules.eq_def, h]

/-- The match list returned by `run_rules` is always a permutation of the
filtered (matching) rules, in particular it contains exactly them. -/
theorem run_rules_snd_perm (facts : Facts) (rules : List Rule) :
    ((run_rules facts rules).2).Perm (rules.filter (fun r => rule_matches facts r)) := by
  cases h : rules.filter (fun r => rule_matches facts r) with
  | nil => rw [run_rules_of_filter_nil facts rules h]
  | cons f fs =>
    rw [run_rules_of_filter_cons facts rules f fs h]
    exact sortDesc_perm (f :: fs)

/-- The match list returned by `run_rules` is always sorted by priority,
descending. -/
theorem run_rules_snd_pairwise (facts : Facts) (rules : List Rule) :
    ((run_rules facts rules).2).Pairwise (fun a b => getPriority b ≤ getPriority a) := by
  cases h : rules.filter (fun r => rule_matches facts r) with
  | nil => rw [run_rules_of_filter_nil facts rules h]; simp
  | cons f fs =>
    rw [run_rules_of_filter_cons facts rules f fs h]
    exact sortDesc_pairwise (f :: fs)

/-- Stability: within any one priority, the match list returned by
`run_rules` keeps the input (filtered-list) order. -/
theorem run_rules_snd_filter (facts : Facts) (rules : List Rule) (k : ℚ) :
    ((run_rules facts rules).2).filter (fun r => decide (getPriority r = k)) =
      (rules.filter (fun r => rule_matches facts r)).filter
        (fun r => decide (getPriority r = k)) := by
  cases h : rules.filter (fun r => rule_matches facts r) with
  | nil => rw [run_rules_of_filter_nil facts rules h]
  | cons f fs =>
    rw [run_rules_of_filter_cons facts rules f fs h]
    exact sortDesc_filter k (f :: fs)

/-!
Example rules used by the witnesses: three always-matching rules (empty
condition lists) with priorities 5, 5 and 2, and one rule whose single
condition references a fact key that can be left out. -/

def wRuleA : Rule := ⟨some "a", some 5, some [], some (.str "A")⟩

def wRuleB : Rule := ⟨some "b", some 5, some [], some (.str "B")⟩

def wRuleC : Rule := ⟨some "c", some 2, some [], some (.str "C")⟩

def wRuleD : Rule := ⟨some "d", some 1, some [[.str "x", .str "==", .num 1]], some (.str "D")⟩

/-- Claim C1: whenever at least one rule matches, `run_rules` returns the
matched rules stable-sorted by priority descending — a permutation of the
filtered rules, pairwise non-increasing in priority, with the rules of any
one priority kept in input order — and the Decision is the action of the
first element of that sorted list, the leftmost matched rule of maximal
priority (with the code's `"No action defined"` default when that rule has
no action field, cf. claim C6). -/
theorem run_rules_winner (facts : Facts) (rules : List Rule) (f : Rule) (fs : List Rule)
    (h : rules.filter (fun r => rule_matches facts r) = f :: fs) :
    ((run_rules facts rules).2).Perm (f :: fs) ∧
    ((run_rules facts rules).2).Pairwise (fun a b => getPriority b ≤ getPriority a) ∧
    (∀ k : ℚ, ((run_rules facts rules).2).filter (fun r => decide (getPriority r = k)) =
      (f :: fs).filter (fun r => decide (getPriority r = k))) ∧
    ∃ t, (run_rules facts rules).2 = firstMaxBy f fs :: t ∧
      (run_rules facts rules).1 = (firstMaxBy f fs).action.getD noActionDecision := by
  refine ⟨h ▸ run_rules_snd_perm facts rules, run_rules_snd_pairwise facts rules, ?_, ?_⟩
  · intro k
    rw [run_rules_snd_filter facts rules k, h]
  · obtain ⟨t, ht⟩ := sortDesc_head f fs
    rw [run_rules_of_filter_cons facts rules f fs h]
    refine ⟨t, ?_, ?_⟩ <;> simp [ht]

/-- Witness for C1 at a concrete tie: rules with priorities 2, 5, 5 (in
that input order) all match, and the Decision is the action of the first
priority-5 rule. -/
theorem run_rules_winner_witness :
    (run_rules [] [wRuleC, wRuleA, wRuleB]).1 = Val.str "A" := by
  obtain ⟨-, -, -, t, -, hfst⟩ :=
    run_rules_winner [] [wRuleC, wRuleA, wRuleB] wRuleC [wRuleA, wRuleB] rfl
  rw [hfst]
  norm_num [firstMaxBy, wRuleA, wRuleB, wRuleC, getPriority]

/-- Claim C2: when no rule matches, `run_rules` returns exactly the
fallback Decision `{"decision": "REVIEW", "reason": "No rule matched"}`
and the empty match list (a defined value, by construction of the total
function `run_rules`). -/
theorem run_rules_no_match (facts : Facts) (rules : List Rule)
    (h : rules.filter (fun r => rule_matches facts r) = []) :
    run_rules facts rules =
      (Val.vdict [("decision", .str "REVIEW"), ("reason", .str "No rule matched")], []) :=
  run_rules_of_filter_nil facts rules h

/-- Witness for C2: an empty fact set fails `wRuleD`'s single condition
(the key `"x"` is absent), so nothing matches. -/
theorem run_rules_no_match_witness :
    run_rules [] [wRuleD] =
      (Val.vdict [("decision", .str "REVIEW"), ("reason", .str "No rule matched")], []) :=
  run_rules_no_match [] [wRuleD] rfl

/-- Claim C3: `rule_matches` is true exactly when every condition in the
rule's condition list (the `conditions` value, `[]` when the key is
absent) evaluates to true; in particular an empty condition list matches
every fact set. -/
theorem rule_matches_iff (facts : Facts) (r : Rule) :
    (rule_matches facts r = true ↔
      ∀ c ∈ r.conditions.getD [], evaluate_condition facts c = true) ∧
    (r.conditions.getD [] = [] → rule_matches facts r = true) := by
  constructor
  · simp [rule_matches, List.all_eq_true]
  · intro h
    simp [rule_matches, h]

/-- Witness for C3: the empty-condition rule `wRuleA` matches the empty
fact set. -/
theorem rule_matches_iff_witness : rule_matches [] wRuleA = true :=
  (rule_matches_iff [] wRuleA).2 rfl

/-- Claim C4 counterexample: the claim asserts that `evaluate_condition`
is total and returns `false` in every degenerate case, including a field
absent from the fact set — but for the three-element condition
`[[], "==", 0]`, whose list-valued field is absent from every
(string-keyed) fact set, the program raises `TypeError` instead of
returning `false`: the membership test `field not in facts` (line 93)
hashes the unhashable list and sits OUTSIDE the `try` (which starts at
line 95).  In the exception-aware model the result is `none` (a raised
exception), not `false`. -/
theorem evaluate_condition_raw_unhashable :
    evaluate_condition_raw [] (.vlist [.vlist [], .str "==", .num 0]) = none := rfl

/-- Claim C4 (amended): for every condition whose field and operator
slots are hashable (numbers or strings), `evaluate_condition` returns
`false` — raising no exception — in every degenerate case: wrong arity; a
numeric field or a numeric operator (hashable, but never a key of the
string-keyed fact dictionary or of `OPS`); a field absent from the fact
set; an operator not in `OPS`; or an operator application that raises
(`applyOp … = none`, e.g. a type-incompatible comparison).  For a
three-element condition with a list- or dictionary-valued field or
operator slot the program instead raises `TypeError` (see the
counterexample).  `evalCondList` is the exception-aware model of
`evaluate_condition` on a list condition: `some false` is an ordinary
`False` return, `none` a raised exception. -/
theorem evalCondList_degenerate (facts : Facts) (vs : List Val) :
    (vs.length ≠ 3 → evalCondList facts vs = some false) ∧
    (∀ q : ℚ, ∀ o v : Val, vs = [.num q, o, v] →
      evalCondList facts vs = some false) ∧
    (∀ f : String, ∀ q : ℚ, ∀ v : Val, vs = [.str f, .num q, v] →
      evalCondList facts vs = some false) ∧
    (∀ f o : String, ∀ v : Val, vs = [.str f, .str o, v] →
      ((dictGet facts f = none → evalCondList facts vs = some false) ∧
       (opKeys.contains o = false → evalCondList facts vs = some false) ∧
       (∀ fv, dictGet facts f = some fv → applyOp o fv v = none →
         evalCondList facts vs = some false))) := by
  refine ⟨?_, ?_, ?_, ?_⟩
  · intro hlen
    rw [evalCondList.eq_def]
    split
    · simp at hlen
    · rfl
  · intro q o v heq
    subst heq
    rfl
  · intro f q v heq
    subst heq
    cases hget : dictGet facts f with
    | none => simp [evalCondList, hget]
    | some fv => simp [evalCondList, hget]
  · intro f o v heq
    subst heq
    refine ⟨?_, ?_, ?_⟩
    · intro hd
      simp [evalCondList, hd]
    · intro ho
      have ho' : o ∉ opKeys := by simpa using ho
      cases hget : dictGet facts f with
      | none => simp [evalCondList, hget]
      | some fv => simp [evalCondList, hget, ho']
    · intro fv hfv happ
      by_cases hco : opKeys.contains o
      · have hco' : o ∈ opKeys := by simpa using hco
        simp [evalCondList, hfv, hco', happ]
      · have hco' : o ∉ opKeys := by simpa using hco
        simp [evalCondList, hfv, hco']

/-- Witness for the amended C4: a one-element condition and a condition
with a numeric field both return `false` without raising. -/
theorem evalCondList_degenerate_witness :
    evalCondList [] [Val.num 1] = some false ∧
    evalCondList [] [Val.num 1, Val.str "==", Val.num 0] = some false :=
  ⟨(evalCondList_degenerate [] [Val.num 1]).1 (by decide),
   (evalCondList_degenerate [] [Val.num 1, Val.str "==", Val.num 0]).2.1 1
     (Val.str "==") (Val.num 0) rfl⟩

/-!
Further example rules for witnesses: a matching rule without an action, a
rule with no `conditions` key, and always-matching rules without a
`priority` key / with a negative priority. -/

def wRuleE : Rule := ⟨some "e", some 3, some [], none⟩

def wRuleF : Rule := ⟨some "f", some 7, none, some (.str "F")⟩

def wRuleG : Rule := ⟨some "g", none, some [], some (.str "G")⟩

def wRuleH : Rule := ⟨some "h", some (-1), some [], some (.str "H")⟩

/-- Claim C6: when the match list is non-empty and its first element (the
winner) has no `action` field, the Decision is the fixed default
`{"decision": "REVIEW", "reason": "No action defined"}`, and the winning
rule is still in the match list. -/
theorem run_rules_missing_action (facts : Facts) (rules : List Rule) (w : Rule)
    (t : List Rule) (h : (run_rules facts rules).2 = w :: t) (hw : w.action = none) :
    (run_rules facts rules).1 =
      Val.vdict [("decision", .str "REVIEW"), ("reason", .str "No action defined")] ∧
    w ∈ (run_rules facts rules).2 := by
  cases hfil : rules.filter (fun r => rule_matches facts r) with
  | nil =>
    rw [run_rules_of_filter_nil facts rules hfil] at h
    exact absurd h (by simp)
  | cons f fs =>
    have hr := run_rules_of_filter_cons facts rules f fs hfil
    rw [hr] at h
    have hsnd : sortDesc (f :: fs) = w :: t := by simpa using h
    rw [hr]
    constructor
    · simp [hsnd, hw, noActionDecision]
    · simp [hsnd]

/-- Witness for C6: a single matching rule without an action yields the
`"No action defined"` Decision. -/
theorem run_rules_missing_action_witness :
    (run_rules [] [wRuleE]).1 =
      Val.vdict [("decision", Val.str "REVIEW"), ("reason", Val.str "No action defined")] :=
  (run_rules_missing_action [] [wRuleE] wRuleE [] rfl rfl).1

/-- Claim C9: a rule record with no `conditions` key at all matches every
fact set, and therefore appears in the match list whenever it is among the
input rules. -/
theorem rule_no_conditions_matches (facts : Facts) (r : Rule) (hc : r.conditions = none)
    (rules : List Rule) (hmem : r ∈ rules) :
    rule_matches facts r = true ∧ r ∈ (run_rules facts rules).2 := by
  have hm : rule_matches facts r = true := by simp [rule_matches, hc]
  refine ⟨hm, ?_⟩
  have hf : r ∈ rules.filter (fun x => rule_matches facts x) :=
    List.mem_filter.mpr ⟨hmem, hm⟩
  exact (run_rules_snd_perm facts rules).mem_iff.mpr hf

/-- A pair of rules of strictly decreasing priority occurs in sorted order
inside any descending-sorted list containing both. -/
theorem pairwise_sublist_pair {l : List Rule}
    (hp : l.Pairwise (fun a b => getPriority b ≤ getPriority a)) {a b : Rule}
    (ha : a ∈ l) (hb : b ∈ l) (hab : getPriority b < getPriority a) :
    List.Sublist [a, b] l := by
  induction l with
  | nil => cases ha
  | cons x xs ih =>
    rw [List.pairwise_cons] at hp
    obtain ⟨h1, h2⟩ := hp
    rcases List.mem_cons.mp ha with hax | hax
    · have hbxs : b ∈ xs := by
        rcases List.mem_cons.mp hb with hbx | hbmem
        · exfalso
          rw [hax, hbx] at hab
          exact lt_irrefl _ hab
        · exact hbmem
      rw [hax]
      exact (List.singleton_sublist.mpr hbxs).cons₂ x
    · have hbxs : b ∈ xs := by
        rcases List.mem_cons.mp hb with hbx | hbmem
        · exfalso
          have := h1 a hax
          rw [← hbx] at this
          exact absurd hab (not_lt.mpr this)
        · exact hbmem
      exact (ih h2 hax hbxs).cons x

/-- Claim C10: a matched rule with no `priority` key sorts with key `0`:
it comes after every matched rule of positive priority, before every
matched rule of negative priority, and the priority-`0` rules of the match
list keep the filtered input order. -/
theorem run_rules_missing_priority (facts : Facts) (rules : List Rule) (r s : Rule)
    (hr : r.priority = none) (hrm : r ∈ (run_rules facts rules).2)
    (hsm : s ∈ (run_rules facts rules).2) :
    getPriority r = 0 ∧
    (0 < getPriority s → List.Sublist [s, r] (run_rules facts rules).2) ∧
    (getPriority s < 0 → List.Sublist [r, s] (run_rules facts rules).2) ∧
    ((run_rules facts rules).2.filter (fun x => decide (getPriority x = 0)) =
      (rules.filter (fun x => rule_matches facts x)).filter
        (fun x => decide (getPriority x = 0))) := by
  have h0 : getPriority r = 0 := by simp [getPriority, hr]
  refine ⟨h0, ?_, ?_, run_rules_snd_filter facts rules 0⟩
  · intro hs
    exact pairwise_sublist_pair (run_rules_snd_pairwise facts rules) hsm hrm
      (by rw [h0]; exact hs)
  · intro hs
    exact pairwise_sublist_pair (run_rules_snd_pairwise facts rules) hrm hsm
      (by rw [h0]; exact hs)

/-- Witness for C9: the rule `wRuleF` (no `conditions` key) matches the
empty fact set, appears in the match list, and its action wins. -/
theorem rule_no_conditions_matches_witness :
    (rule_matches [] wRuleF = true ∧ wRuleF ∈ (run_rules [] [wRuleF, wRuleC]).2) ∧
    (run_rules [] [wRuleF, wRuleC]).1 = Val.str "F" := by
  have hfil : [wRuleF, wRuleC].filter (fun r => rule_matches [] r) = [wRuleF, wRuleC] := rfl
  have hb : befPriority wRuleC wRuleF = false := by
    simp only [befPriority, getPriority, wRuleC, wRuleF, Option.getD_some]
    norm_num
  have hsort : sortDesc [wRuleF, wRuleC] = [wRuleF, wRuleC] := by
    simp [sortDesc, sortB, insertB, hb]
  constructor
  · exact rule_no_conditions_matches [] wRuleF rfl [wRuleF, wRuleC]
      (List.mem_cons_self _ _)
  · rw [run_rules_of_filter_cons [] [wRuleF, wRuleC] wRuleF [wRuleC] hfil]
    show ((sortDesc [wRuleF, wRuleC]).headD wRuleF).action.getD noActionDecision = Val.str "F"
    rw [hsort]
    rfl

/-- Witness for C10: with matched priorities `none`, `5` and `-1` in input
order, the keyless rule sorts at `0`, after the priority-5 rule. -/
theorem run_rules_missing_priority_witness :
    getPriority wRuleG = 0 ∧
    List.Sublist [wRuleA, wRuleG] (run_rules [] [wRuleG, wRuleA, wRuleH]).2 := by
  have hfil : [wRuleG, wRuleA, wRuleH].filter (fun r => rule_matches [] r) =
      [wRuleG, wRuleA, wRuleH] := rfl
  have hb1 : befPriority wRuleH wRuleA = false := by
    simp only [befPriority, getPriority, wRuleH, wRuleA, Option.getD_some]
    norm_num
  have hb2 : befPriority wRuleA wRuleG = true := by
    simp only [befPriority, getPriority, wRuleA, wRuleG, Option.getD_some, Option.getD_none]
    norm_num
  have hb3 : befPriority wRuleH wRuleG = false := by
    simp only [befPriority, getPriority, wRuleH, wRuleG, Option.getD_some, Option.getD_none]
    norm_num
  have hsort : sortDesc [wRuleG, wRuleA, wRuleH] = [wRuleA, wRuleG, wRuleH] := by
    simp [sortDesc, sortB, insertB, hb1, hb2, hb3]
  have hout : (run_rules [] [wRuleG, wRuleA, wRuleH]).2 = [wRuleA, wRuleG, wRuleH] := by
    rw [run_rules_of_filter_cons [] [wRuleG, wRuleA, wRuleH] wRuleG [wRuleA, wRuleH] hfil]
    simpa using hsort
  obtain ⟨h0, hpos, -, -⟩ :=
    run_rules_missing_priority [] [wRuleG, wRuleA, wRuleH] wRuleG wRuleA rfl
      (by rw [hout]; simp) (by rw [hout]; simp)
  refine ⟨h0, ?_⟩
  rw [← hout] at *
  exact hpos (by norm_num [getPriority, wRuleA])

/-- Claim C7: the transcription of `DEFAULT_RULES` carries exactly the
five rules of the specification's literal contract — names, priorities,
condition triples and decisions, in this input order. -/
theorem default_rules_literal :
    DEFAULT_RULES.map (fun r => r.name) =
      [some "Top merit candidate", some "Good candidate - partial scholarship",
       some "Need-based review", some "Low CGPA – not eligible",
       some "Serious disciplinary record"] ∧
    DEFAULT_RULES.map (fun r => r.priority) =
      [some 100, some 80, some 70, some 95, some 90] ∧
    DEFAULT_RULES.map (fun r => r.conditions) =
      [some [[.str "cgpa", .str ">=", .num 3.7],
             [.str "co_curricular_score", .str ">=", .num 80],
             [.str "family_income", .str "<=", .num 8000],
             [.str "disciplinary_actions", .str "==", .num 0]],
       some [[.str "cgpa", .str ">=", .num 3.3],
             [.str "co_curricular_score", .str ">=", .num 60],
             [.str "family_income", .str "<=", .num 12000],
             [.str "disciplinary_actions", .str "<=", .num 1]],
       some [[.str "cgpa", .str ">=", .num 2.5],
             [.str "family_income", .str "<=", .num 4000]],
       some [[.str "cgpa", .str "<", .num 2.5]],
       some [[.str "disciplinary_actions", .str ">=", .num 2]]] ∧
    DEFAULT_RULES.map (fun r => r.action.bind (fun a =>
      match a with
      | .vdict kvs => dictGet kvs "decision"
      | _ => none)) =
      [some (.str "AWARD_FULL"), some (.str "AWARD_PARTIAL"), some (.str "REVIEW"),
       some (.str "REJECT"), some (.str "REJECT")] :=
  ⟨rfl, rfl, rfl, rfl⟩

/-- The fact set of the specification's Scenario B: `cgpa` 2.0,
`family_income` 3000, `disciplinary_actions` 0, and no
`co_curricular_score` key. -/
def scenarioBFacts : Facts :=
  [("cgpa", .num 2.0), ("family_income", .num 3000), ("disciplinary_actions", .num 0)]

theorem scenarioB_cgpa : dictGet scenarioBFacts "cgpa" = some (.num 2.0) := rfl

theorem scenarioB_income : dictGet scenarioBFacts "family_income" = some (.num 3000) := rfl

theorem scenarioB_disc : dictGet scenarioBFacts "disciplinary_actions" = some (.num 0) := rfl

theorem scenarioB_cocurr : dictGet scenarioBFacts "co_curricular_score" = none := rfl

theorem scenarioB_rule1 : rule_matches scenarioBFacts defaultRule1 = false := by
  norm_num [rule_matches, defaultRule1, evaluate_condition_triple, scenarioB_cgpa,
    scenarioB_cocurr, scenarioB_income, scenarioB_disc, opKeys_geOp, opKeys_leOp,
    opKeys_eqOp, applyOp_geOp, applyOp_leOp, applyOp_eqOp, pyCmp_num, pyEq_num, cmpQ]

theorem scenarioB_rule2 : rule_matches scenarioBFacts defaultRule2 = false := by
  norm_num [rule_matches, defaultRule2, evaluate_condition_triple, scenarioB_cgpa,
    scenarioB_cocurr, scenarioB_income, scenarioB_disc, opKeys_geOp, opKeys_leOp,
    applyOp_geOp, applyOp_leOp, pyCmp_num, cmpQ]

theorem scenarioB_rule3 : rule_matches scenarioBFacts defaultRule3 = false := by
  norm_num [rule_matches, defaultRule3, evaluate_condition_triple, scenarioB_cgpa,
    scenarioB_income, opKeys_geOp, opKeys_leOp, applyOp_geOp, applyOp_leOp,
    pyCmp_num, cmpQ]
  all_goals decide

theorem scenarioB_rule4 : rule_matches scenarioBFacts defaultRule4 = true := by
  norm_num [rule_matches, defaultRule4, evaluate_condition_triple, scenarioB_cgpa,
    opKeys_ltOp, applyOp_ltOp, pyCmp_num, cmpQ]
  all_goals decide

theorem scenarioB_rule5 : rule_matches scenarioBFacts defaultRule5 = false := by
  norm_num [rule_matches, defaultRule5, evaluate_condition_triple, scenarioB_disc,
    opKeys_geOp, applyOp_geOp, pyCmp_num, cmpQ]
  all_goals decide

theorem scenarioB_filter :
    DEFAULT_RULES.filter (fun r => rule_matches scenarioBFacts r) = [defaultRule4] := by
  simp [DEFAULT_RULES, List.filter_cons, scenarioB_rule1, scenarioB_rule2,
    scenarioB_rule3, scenarioB_rule4, scenarioB_rule5]

/-- Claim C8: Scenario B — facts `{cgpa: 2.0, family_income: 3000,
disciplinary_actions: 0}` (no `co_curricular_score`) against
`DEFAULT_RULES` match exactly the priority-95 rule "Low CGPA – not
eligible", and the Decision is `REJECT` with reason "CGPA below minimum
scholarship requirement"; the rules referencing the absent
`co_curricular_score` key do not match. -/
theorem run_rules_scenarioB :
    run_rules scenarioBFacts DEFAULT_RULES =
      (Val.vdict [("decision", .str "REJECT"),
                  ("reason", .str "CGPA below minimum scholarship requirement")],
       [defaultRule4]) := by
  rw [run_rules_of_filter_cons scenarioBFacts DEFAULT_RULES defaultRule4 [] scenarioB_filter]
  rfl

/-!
Claim C5: totality of the raw model on well-formed rule records, and its
failure on records of arbitrary shape.
-/

theorem evalCondList_of_scalar (facts : Facts) (vs : List Val)
    (h : ∀ f o v, vs = [f, o, v] → isScalar f = true ∧ isScalar o = true) :
    ∃ b, evalCondList facts vs = some b := by
  match vs with
  | [] => exact ⟨false, rfl⟩
  | [_] => exact ⟨false, rfl⟩
  | [_, _] => exact ⟨false, rfl⟩
  | [f, o, v] =>
    obtain ⟨hf, ho⟩ := h f o v rfl
    cases f with
    | num q => exact ⟨false, rfl⟩
    | str s =>
      cases hget : dictGet facts s with
      | none => exact ⟨false, by simp [evalCondList, hget]⟩
      | some fv =>
        cases o with
        | num q2 => exact ⟨false, by simp [evalCondList, hget]⟩
        | str o2 =>
          by_cases hco : opKeys.contains o2
          · have hco' : o2 ∈ opKeys := by simpa using hco
            exact ⟨(applyOp o2 fv v).getD false, by simp [evalCondList, hget, hco']⟩
          · have hco' : o2 ∉ opKeys := by simpa using hco
            exact ⟨false, by simp [evalCondList, hget, hco']⟩
        | vlist l => simp [isScalar] at ho
        | vdict d => simp [isScalar] at ho
    | vlist l => simp [isScalar] at hf
    | vdict d => simp [isScalar] at hf
  | _ :: _ :: _ :: _ :: _ => exact ⟨false, rfl⟩

theorem evaluate_condition_raw_of_wf (facts : Facts) (c : Val) (h : wfCond c = true) :
    ∃ b, evaluate_condition_raw facts c = some b := by
  cases c with
  | num q => simp [wfCond] at h
  | str s => simp [wfCond] at h
  | vdict kvs => simp [wfCond] at h
  | vlist vs =>
    have hshape : ∀ f o v, vs = [f, o, v] → isScalar f = true ∧ isScalar o = true := by
      intro f o v hveq
      subst hveq
      simpa [wfCond, Bool.and_eq_true] using h
    exact evalCondList_of_scalar facts vs hshape

theorem condsAll_of_wf (facts : Facts) (cs : List Val)
    (h : ∀ c ∈ cs, wfCond c = true) : ∃ b, condsAll facts cs = some b := by
  induction cs with
  | nil => exact ⟨true, rfl⟩
  | cons c cs' ih =>
    obtain ⟨b, hb⟩ := evaluate_condition_raw_of_wf facts c (h c (List.mem_cons_self c cs'))
    obtain ⟨b', hb'⟩ := ih (fun x hx => h x (List.mem_cons_of_mem c hx))
    cases b
    · exact ⟨false, by rw [condsAll, hb]⟩
    · exact ⟨b', by rw [condsAll, hb]; exact hb'⟩

theorem rule_matches_raw_of_wf (facts : Facts) (r : Val) (h : wfRule r = true) :
    ∃ b, rule_matches_raw facts r = some b := by
  cases r with
  | num q => simp [wfRule] at h
  | str s => simp [wfRule] at h
  | vlist vs => simp [wfRule] at h
  | vdict kvs =>
    rw [wfRule, Bool.and_eq_true] at h
    obtain ⟨h1, -⟩ := h
    cases hc : (dictGet kvs "conditions").getD (.vlist []) with
    | num q => rw [hc] at h1; simp at h1
    | str s => rw [hc] at h1; simp at h1
    | vdict k2 => rw [hc] at h1; simp at h1
    | vlist cs =>
      rw [hc] at h1
      obtain ⟨b, hb⟩ := condsAll_of_wf facts cs (fun c hcm => List.all_eq_true.mp h1 c hcm)
      exact ⟨b, by rw [rule_matches_raw, hc]; exact hb⟩

theorem filterMatches_of_wf (facts : Facts) (rules : List Val)
    (h : ∀ r ∈ rules, wfRule r = true) :
    ∃ l, filterMatches facts rules = some l ∧ ∀ x ∈ l, x ∈ rules := by
  induction rules with
  | nil => exact ⟨[], rfl, by simp⟩
  | cons r rs ih =>
    obtain ⟨l, hl, hsub⟩ := ih (fun x hx => h x (List.mem_cons_of_mem r hx))
    obtain ⟨b, hb⟩ := rule_matches_raw_of_wf facts r (h r (List.mem_cons_self r rs))
    cases b
    · exact ⟨l, by rw [filterMatches, hb]; exact hl,
        fun x hx => List.mem_cons_of_mem r (hsub x hx)⟩
    · refine ⟨r :: l, by rw [filterMatches, hb, hl]; rfl, ?_⟩
      intro x hx
      rcases List.mem_cons.mp hx with hxr | hx'
      · rw [hxr]
        exact List.mem_cons_self r rs
      · exact List.mem_cons_of_mem r (hsub x hx')

theorem rawPriority_of_wf (r : Val) (h : wfRule r = true) :
    ∃ q, rawPriority r = Val.num q := by
  cases r with
  | num q => simp [wfRule] at h
  | str s => simp [wfRule] at h
  | vlist vs => simp [wfRule] at h
  | vdict kvs =>
    rw [wfRule, Bool.and_eq_true] at h
    obtain ⟨-, h2⟩ := h
    cases hp : (dictGet kvs "priority").getD (.num 0) with
    | num q => exact ⟨q, by rw [rawPriority]; exact hp⟩
    | str s => rw [hp] at h2; simp at h2
    | vlist v => rw [hp] at h2; simp at h2
    | vdict d => rw [hp] at h2; simp at h2

theorem allComparable_of_nums (ks : List Val) (h : ∀ k ∈ ks, ∃ q, k = Val.num q) :
    allComparable ks = true := by
  induction ks with
  | nil => rfl
  | cons k ks' ih =>
    rw [allComparable, Bool.and_eq_true]
    constructor
    · apply List.all_eq_true.mpr
      intro k2 hk2
      obtain ⟨q, hkq⟩ := h k (List.mem_cons_self k ks')
      obtain ⟨q2, hk2q⟩ := h k2 (List.mem_cons_of_mem k hk2)
      rw [hkq, hk2q, pyCmp_num]
      rfl
    · exact ih (fun x hx => h x (List.mem_cons_of_mem k hx))

theorem run_rules_raw_of_filter_nil (facts : Facts) (rules : List Val)
    (h : filterMatches facts rules = some []) :
    run_rules_raw facts rules = some (noMatchDecision, []) := by
  rw [run_rules_raw.eq_def, h]

theorem run_rules_raw_of_filter_cons (facts : Facts) (rules : List Val) (f : Val)
    (fs : List Val) (h : filterMatches facts rules = some (f :: fs)) :
    run_rules_raw facts rules =
      (if allComparable ((f :: fs).map rawPriority) = true then
        match sortB befRaw (f :: fs) with
        | [] => none
        | b :: t =>
          match rawActionOpt b with
          | none => none
          | some a => some (a, b :: t)
      else none) := by
  rw [run_rules_raw.eq_def, h]

/-- Claim C5 counterexample: the claim quantifies over "malformed rule
records of any shape", but `run_rules(facts, [5])` raises
`AttributeError` — the integer record has no `.get` — before anything is
returned (`none` in the raw model).  So `run_rules` does not always
return a Decision on malformed rule records. -/
theorem run_rules_raw_nondict : run_rules_raw [] [Val.num 5] = none := rfl

/-- Claim C5 (amended): for every fact set and every rule list whose
records are well-formed — dictionaries whose `conditions` value
(defaulting to `[]`) is a list of condition lists with hashable
field/operator slots, and whose `priority` value (defaulting to `0`) is a
number — `run_rules` raises no exception: it returns a Decision and a
match list. -/
theorem run_rules_raw_total_of_wf (facts : Facts) (rules : List Val)
    (h : ∀ r ∈ rules, wfRule r = true) :
    ∃ out, run_rules_raw facts rules = some out := by
  obtain ⟨l, hl, hsub⟩ := filterMatches_of_wf facts rules h
  cases l with
  | nil => exact ⟨(noMatchDecision, []), run_rules_raw_of_filter_nil facts rules hl⟩
  | cons f fs =>
    have hwf : ∀ x ∈ f :: fs, wfRule x = true := fun x hx => h x (hsub x hx)
    have hcomp : allComparable ((f :: fs).map rawPriority) = true := by
      apply allComparable_of_nums
      intro k hk
      obtain ⟨x, hx, hkx⟩ := List.mem_map.mp hk
      obtain ⟨q, hq⟩ := rawPriority_of_wf x (hwf x hx)
      exact ⟨q, by rw [← hkx, hq]⟩
    have hperm := sortB_perm befRaw (f :: fs)
    cases hs : sortB befRaw (f :: fs) with
    | nil =>
      exfalso
      rw [hs] at hperm
      simpa using hperm.length_eq
    | cons b t =>
      have hbmem : b ∈ f :: fs := by
        rw [hs] at hperm
        exact hperm.mem_iff.mp (List.mem_cons_self b t)
      have hbwf := hwf b hbmem
      obtain ⟨kvs, hbeq⟩ : ∃ kvs, b = Val.vdict kvs := by
        cases b with
        | vdict kvs => exact ⟨kvs, rfl⟩
        | num q => simp [wfRule] at hbwf
        | str s => simp [wfRule] at hbwf
        | vlist v => simp [wfRule] at hbwf
      refine ⟨((dictGet kvs "action").getD noActionDecision, b :: t), ?_⟩
      rw [run_rules_raw_of_filter_cons facts rules f fs hl, if_pos hcomp, hs, hbeq]
      rfl

/-- Witness for the amended C5: a single well-formed rule record (a
dictionary with a numeric priority and no `conditions` key). -/
theorem run_rules_raw_total_of_wf_witness :
    ∃ out, run_rules_raw [] [Val.vdict [("priority", Val.num 1)]] = some out :=
  run_rules_raw_total_of_wf [] [Val.vdict [("priority", Val.num 1)]] (by
    intro r hr
    rw [List.mem_singleton] at hr
    subst hr
    rfl)

end RuleEngine
